import Mathlib

/-!
Shallow embedding of the ssh-utils vault (src/config/crypto.rs,
src/config/app_vault.rs) and of the SSH session copy loops
(src/ssh/common.rs, src/ssh/password_session.rs, src/ssh/key_session.rs),
with theorems settling the specification claims.

Rust byte slices and strings are modelled as `List Nat` (their byte
values); Rust `Result` as `Except`, and a reachable Rust panic as an
explicit constructor of the result type.  The external crates the code
calls (sha2, hmac, rust-argon2, the openssl AES-256-CTR keystream) are
not part of this repository: they are modelled as an abstract bundle of
primitives `CryptoPrims`, carrying only the output-length facts the
embedded code relies on (`copy_from_slice` panics unless lengths match,
and HMAC-SHA256 tags are 32 bytes).  AES-256-CTR encryption and
decryption both XOR the data with the same key/IV-determined
keystream, which is what makes them length-preserving and mutually
inverse.
-/

namespace SshUtils

/-- Abstract model of the external cryptographic primitives used by the
code: SHA-256 and HMAC-SHA256 (sha2/hmac crates), argon2::hash_raw with
`Config::owasp3` (which has a 32-byte hash length, and accepts any
password together with the 16-byte salt the code passes, so its error
path is dead), and the AES-256-CTR keystream (openssl), given as the
byte at each stream position for a key and IV. -/
structure CryptoPrims where
  sha256 : List Nat → List Nat
  hmacSha256 : List Nat → List Nat → List Nat
  argon2 : List Nat → List Nat → List Nat
  keystream : List Nat → List Nat → Nat → Nat
  sha256_len : ∀ m, (sha256 m).length = 32
  hmacSha256_len : ∀ k m, (hmacSha256 k m).length = 32
  argon2_len : ∀ p s, (argon2 p s).length = 32

/-- A concrete instantiation of the primitive bundle, used to evaluate
the embedded code on concrete inputs. -/
def testPrims : CryptoPrims where
  sha256 := fun _ => List.replicate 32 0
  hmacSha256 := fun _ _ => List.replicate 32 0
  argon2 := fun _ _ => List.replicate 32 0
  keystream := fun _ _ _ => 0
  sha256_len := fun _ => List.length_replicate 32 0
  hmacSha256_len := fun _ _ => List.length_replicate 32 0
  argon2_len := fun _ _ => List.length_replicate 32 0

/-- A second concrete bundle whose HMAC tag is nonzero, for exercising
the tag-mismatch branch on concrete inputs. -/
def testPrimsOne : CryptoPrims where
  sha256 := fun _ => List.replicate 32 0
  hmacSha256 := fun _ _ => List.replicate 32 1
  argon2 := fun _ _ => List.replicate 32 0
  keystream := fun _ _ _ => 0
  sha256_len := fun _ => List.length_replicate 32 0
  hmacSha256_len := fun _ _ => List.length_replicate 32 1
  argon2_len := fun _ _ => List.length_replicate 32 0

/-- XOR a byte list with the keystream `s`, starting at stream
position `i` — the CTR-mode core of both `aes_encrypt` and
`aes_decrypt` (src/config/crypto.rs): in CTR mode both directions
apply the identical keystream. -/
def ctrXor (s : Nat → Nat) : Nat → List Nat → List Nat
  | _, [] => []
  | i, b :: bs => (b ^^^ s i) :: ctrXor s (i + 1) bs

/-- `aes_encrypt` (src/config/crypto.rs, lines 44-57): AES-256-CTR
encryption; with the openssl `Crypter` in CTR mode this XORs the data
with the key/IV-determined keystream (the `Crypter::new` failure path
is dead for the 32-byte keys and 16-byte IVs the code passes). -/
def aes_encrypt (P : CryptoPrims) (key iv data : List Nat) : List Nat :=
  ctrXor (P.keystream key iv) 0 data

/-- `aes_decrypt` (src/config/crypto.rs, lines 59-73): identical
keystream application in the decrypt direction. -/
def aes_decrypt (P : CryptoPrims) (key iv data : List Nat) : List Nat :=
  ctrXor (P.keystream key iv) 0 data

/-- `generate_iv` (src/config/crypto.rs, lines 37-42): fills a 16-byte
array from the thread RNG; the random draw is modelled by the explicit
byte source `r`. -/
def generate_iv (r : Nat → Nat) : List Nat :=
  (List.range 16).map r

/-- `derive_sha256_digest` (src/config/crypto.rs, lines 10-17): the
first 16 bytes of SHA-256(password) (`copy_from_slice` into a 16-byte
array from `result[..16]`, well defined because SHA-256 output has 32
bytes). -/
def derive_sha256_digest (P : CryptoPrims) (password : List Nat) : List Nat :=
  (P.sha256 password).take 16

/-- `derive_key_from_password` (src/config/crypto.rs, lines 22-32):
salt = `derive_sha256_digest password`, key = argon2(password, salt)
with `Config::owasp3`; the argon2 error path is dead for this fixed
valid configuration, so the function is total here. -/
def derive_key_from_password (P : CryptoPrims) (password : List Nat) : List Nat :=
  P.argon2 password (derive_sha256_digest P password)

/-- `derive_iv_from_id` (src/config/app_vault.rs, lines 153-163): the
first 16 bytes of SHA-256(id). -/
def derive_iv_from_id (P : CryptoPrims) (id : List Nat) : List Nat :=
  (P.sha256 id).take 16

/-- One byte of `hex::encode` output: the ASCII code of a hex digit. -/
def hexDigit (n : Nat) : Nat :=
  if n < 10 then 48 + n else 87 + n

/-- `hex::encode`: each byte becomes two ASCII hex-digit bytes. -/
def hexEncode : List Nat → List Nat
  | [] => []
  | b :: bs => hexDigit (b / 16 % 16) :: hexDigit (b % 16) :: hexEncode bs

/-- `encrypt_password` (src/config/app_vault.rs, lines 168-179):
IV derived from the id, AES-256-CTR encryption, hex encoding.  The
function reads no randomness. -/
def encrypt_password (P : CryptoPrims) (id password key : List Nat) : List Nat :=
  hexEncode (aes_encrypt P key (derive_iv_from_id P id) password)

/-- One call of `encrypt_password` in a process whose thread RNG would
next yield the byte source `r`: the source never reads the RNG, so `r`
is unused.  (Contrast `encrypt_vault`, whose output depends on the RNG
through `generate_iv`.) -/
def encrypt_password_call (P : CryptoPrims) (r : Nat → Nat)
    (id password key : List Nat) : List Nat :=
  encrypt_password P id password key

/-- `Server` (src/config/app_vault.rs, lines 15-19); `id` and
`password` are the byte contents of the Rust strings. -/
structure Server where
  id : List Nat
  password : List Nat
deriving DecidableEq

/-- `Vault` (src/config/app_vault.rs, lines 21-24). -/
structure Vault where
  servers : List Server
deriving DecidableEq

/-- Outcome of `decrypt_vault`: `panicked` marks a reachable Rust
panic (slice `split_at` out of range); `hmacError` the
`verify_slice` failure; `parseError` a UTF-8 or TOML failure. -/
inductive VaultResult where
  | panicked
  | hmacError
  | parseError
  | ok (v : Vault)
deriving DecidableEq

/-- Whether a `VaultResult` is `ok`. -/
def VaultResult.isOk : VaultResult → Bool
  | .ok _ => true
  | _ => false

/-- `encrypt_vault` (src/config/app_vault.rs, lines 99-124):
serializes the vault (`toml::to_string`, modelled by `ser`, total for
this simple record type), draws a random 16-byte IV from byte source
`r`, encrypts, and returns `iv ++ ciphertext ++ HMAC(key, iv ++
ciphertext)`. -/
def encrypt_vault (P : CryptoPrims) (ser : Vault → List Nat)
    (vault : Vault) (encryption_key : List Nat) (r : Nat → Nat) : List Nat :=
  let unencrypt_data := ser vault
  let iv := generate_iv r
  let encrypted_data := aes_encrypt P encryption_key iv unencrypt_data
  let hmac := P.hmacSha256 encryption_key (iv ++ encrypted_data)
  iv ++ encrypted_data ++ hmac

/-- `decrypt_vault` (src/config/app_vault.rs, lines 129-151):
`vault.split_at(16)` panics when the blob has fewer than 16 bytes, and
`rest.split_at(rest.len() - 32)` panics when `rest` has fewer than 32
bytes (usize underflow / out-of-range split); otherwise the trailing
32 bytes are checked against HMAC(key, iv ++ ciphertext) before any
decryption, and only then is the plaintext decrypted and parsed
(`String::from_utf8` + `toml::from_str`, modelled by `deser`). -/
def decrypt_vault (P : CryptoPrims) (deser : List Nat → Option Vault)
    (vault : List Nat) (encryption_key : List Nat) : VaultResult :=
  if vault.length < 16 then .panicked else
  let iv := vault.take 16
  let rest := vault.drop 16
  if rest.length < 32 then .panicked else
  let encrypted_data := rest.take (rest.length - 32)
  let hmac := rest.drop (rest.length - 32)
  if P.hmacSha256 encryption_key (iv ++ encrypted_data) = hmac then
    match deser (aes_decrypt P encryption_key iv encrypted_data) with
    | some v => .ok v
    | none => .parseError
  else .hmacError

/-- Error cases of the fallible vault-store operations: `persistError`
models a failed filesystem write inside `Vault::save` (directory
creation or `fs::write`), `notFound` the `anyhow!` error for an absent
server id. -/
inductive VaultErr where
  | persistError
  | notFound
deriving DecidableEq

instance : DecidableEq (Except VaultErr Unit) := fun a b =>
  match a, b with
  | .ok (), .ok () => isTrue rfl
  | .error x, .error y =>
    if h : x = y then isTrue (by rw [h]) else isFalse (by intro hc; cases hc; exact h rfl)
  | .ok _, .error _ => isFalse (by intro hc; cases hc)
  | .error _, .ok _ => isFalse (by intro hc; cases hc)

/-- `Vault::save` (src/config/app_vault.rs, lines 27-47): encrypts the
vault and writes the blob to the config file.  The filesystem outcome
is modelled by `fsOk`: `true` means directory creation and `fs::write`
succeed. -/
def Vault.save (P : CryptoPrims) (ser : Vault → List Nat) (r : Nat → Nat)
    (fsOk : Bool) (v : Vault) (encryption_key : List Nat) : Except VaultErr Unit :=
  let _encrypt_data := encrypt_vault P ser v encryption_key r
  if fsOk then .ok () else .error .persistError

/-- `Vault::add_server` (src/config/app_vault.rs, lines 59-63): pushes
the new server onto the in-memory list, then calls `save`; the `?`
operator propagates a save error, and the push is not undone.  The
returned pair is (in-memory vault after the call, result). -/
def Vault.add_server (P : CryptoPrims) (ser : Vault → List Nat) (r : Nat → Nat)
    (fsOk : Bool) (v : Vault) (new_server : Server) (encryption_key : List Nat) :
    Vault × Except VaultErr Unit :=
  let v2 : Vault := ⟨v.servers ++ [new_server]⟩
  match Vault.save P ser r fsOk v2 encryption_key with
  | .ok _ => (v2, .ok ())
  | .error e => (v2, .error e)

/-- The in-place update done by `iter_mut().find(...)` in
`Vault::modify_server`: the first server whose id equals `id` gets its
password replaced; `none` when no id matches. -/
def modifyFirst (id pw : List Nat) : List Server → Option (List Server)
  | [] => none
  | s :: rest =>
    if s.id = id then some ({ s with password := pw } :: rest)
    else (modifyFirst id pw rest).map (s :: ·)

/-- `Vault::modify_server` (src/config/app_vault.rs, lines 49-57):
replaces the password of the first server with the given id and calls
`save` (error propagated, mutation kept); `notFound` when the id is
absent, without saving. -/
def Vault.modify_server (P : CryptoPrims) (ser : Vault → List Nat) (r : Nat → Nat)
    (fsOk : Bool) (v : Vault) (id : List Nat) (new_server : Server)
    (encryption_key : List Nat) : Vault × Except VaultErr Unit :=
  match modifyFirst id new_server.password v.servers with
  | some l =>
    let v2 : Vault := ⟨l⟩
    (v2, Vault.save P ser r fsOk v2 encryption_key)
  | none => (v, .error .notFound)

/-- `Vault::delete_server` (src/config/app_vault.rs, lines 65-73):
removes the server at the first position whose id matches and calls
`save` (error propagated, removal kept); `notFound` when absent. -/
def Vault.delete_server (P : CryptoPrims) (ser : Vault → List Nat) (r : Nat → Nat)
    (fsOk : Bool) (v : Vault) (id : List Nat) (encryption_key : List Nat) :
    Vault × Except VaultErr Unit :=
  match v.servers.findIdx? (fun s => s.id = id) with
  | some pos =>
    let v2 : Vault := ⟨v.servers.eraseIdx pos⟩
    (v2, Vault.save P ser r fsOk v2 encryption_key)
  | none => (v, .error .notFound)

/-!
The session-bridge copy loops.  One `tokio::select!` iteration
consumes one scripted event: either a local stdin read result or a
remote `ChannelMsg`.  A remote `Data` event also records what
`crossterm::terminal::size()` returns at that instant, since
`SshChannel::call` queries it there.  The side effects of an iteration
(bytes sent to the channel, EOF, window-change requests, bytes written
to local stdout) are collected as an explicit action trace.
-/

/-- One scripted event delivered to the copy loop. -/
inductive ChEvent where
  | localData (bs : List Nat)
  | localEof
  | localErr
  | msgData (bs : List Nat) (w h : Nat)
  | msgExit (code : Nat)
  | msgOther
deriving DecidableEq

/-- One observable side effect of the copy loop. -/
inductive Action where
  | requestPty (w h : Nat)
  | sendData (bs : List Nat)
  | sendEof
  | winChange (w h : Nat)
  | writeOut (bs : List Nat)
deriving DecidableEq

/-- Whether an action is a window-change notification. -/
def Action.isWinChange : Action → Bool
  | .winChange _ _ => true
  | _ => false

/-- Loop state of `SshChannel::call` (src/ssh/common.rs): the
`stdin_closed` flag and `self.last_size`. -/
structure LoopState where
  stdinClosed : Bool
  lastSize : Nat × Nat
deriving DecidableEq

/-- How a copy loop run ends: normal exit code, an early return on a
stdin read error, or the script being exhausted with the loop still
waiting. -/
inductive CallResult where
  | ok (code : Nat)
  | ioErr
  | pending
deriving DecidableEq

/-- The copy loop of `SshChannel::call` (src/ssh/common.rs, lines
45-79).  Local events are deliverable only while `stdin_closed` is
false (the select branch is guarded); on remote data the current
terminal size is compared with `last_size` and a window change is sent
before the bytes are written when it differs; on exit status the code
is returned, EOF being sent first if stdin is still open. -/
def sshChannelLoop (st : LoopState) : List ChEvent → CallResult × List Action
  | [] => (.pending, [])
  | e :: rest =>
    match e with
    | .localData bs =>
      if st.stdinClosed then sshChannelLoop st rest
      else
        let (res, tr) := sshChannelLoop st rest
        (res, .sendData bs :: tr)
    | .localEof =>
      if st.stdinClosed then sshChannelLoop st rest
      else
        let (res, tr) := sshChannelLoop { st with stdinClosed := true } rest
        (res, .sendEof :: tr)
    | .localErr =>
      if st.stdinClosed then sshChannelLoop st rest
      else (.ioErr, [])
    | .msgData bs w h =>
      if (w, h) = st.lastSize then
        let (res, tr) := sshChannelLoop st rest
        (res, .writeOut bs :: tr)
      else
        let (res, tr) := sshChannelLoop { st with lastSize := (w, h) } rest
        (res, .winChange w h :: .writeOut bs :: tr)
    | .msgExit code =>
      (.ok code, if st.stdinClosed then [] else [.sendEof])
    | .msgOther => sshChannelLoop st rest

/-- The copy loop of `PasswordSession::call`
(src/ssh/password_session.rs, lines 92-127): identical select
structure, but the remote-data branch writes the bytes directly —
no terminal-size query, no window change; its state is just the
`stdin_closed` flag. -/
def passwordSessionLoop (stdinClosed : Bool) : List ChEvent → CallResult × List Action
  | [] => (.pending, [])
  | e :: rest =>
    match e with
    | .localData bs =>
      if stdinClosed then passwordSessionLoop stdinClosed rest
      else
        let (res, tr) := passwordSessionLoop stdinClosed rest
        (res, .sendData bs :: tr)
    | .localEof =>
      if stdinClosed then passwordSessionLoop stdinClosed rest
      else
        let (res, tr) := passwordSessionLoop true rest
        (res, .sendEof :: tr)
    | .localErr =>
      if stdinClosed then passwordSessionLoop stdinClosed rest
      else (.ioErr, [])
    | .msgData bs _ _ =>
      let (res, tr) := passwordSessionLoop stdinClosed rest
      (res, .writeOut bs :: tr)
    | .msgExit code =>
      (.ok code, if stdinClosed then [] else [.sendEof])
    | .msgOther => passwordSessionLoop stdinClosed rest

/-- `SshChannel::call` (src/ssh/common.rs, lines 22-81): requests a
PTY sized to `self.last_size` (captured from the terminal by
`SshChannel::new`), then runs the copy loop with that size as the
last-known size and stdin open. -/
def sshChannelCall (initSize : Nat × Nat) (script : List ChEvent) :
    CallResult × List Action :=
  let (res, tr) := sshChannelLoop ⟨false, initSize⟩ script
  (res, .requestPty initSize.1 initSize.2 :: tr)

/-- `PasswordSession::call` (src/ssh/password_session.rs, lines
66-129): queries the terminal size once for the PTY request, then runs
its copy loop; the size plays no further role. -/
def passwordSessionCall (initSize : Nat × Nat) (script : List ChEvent) :
    CallResult × List Action :=
  let (res, tr) := passwordSessionLoop false script
  (res, .requestPty initSize.1 initSize.2 :: tr)

/-- The payloads of the `writeOut` actions of a trace, in order: what
the bridge writes to local output. -/
def writeOuts (tr : List Action) : List (List Nat) :=
  tr.filterMap fun a =>
    match a with
    | .writeOut bs => some bs
    | _ => none

/-- A scripted remote-only event sequence: `Data` events (payload and
observed terminal size) interleaved with other channel messages (the
`_ => {}` arm: eof or close notifications), as `none` entries. -/
def remoteScript (ds : List (Option (List Nat × Nat × Nat))) : List ChEvent :=
  ds.map fun d =>
    match d with
    | some p => .msgData p.1 p.2.1 p.2.2
    | none => .msgOther

/-- The `Data` payloads of a remote script, in order. -/
def remotePayloads (ds : List (Option (List Nat × Nat × Nat))) : List (List Nat) :=
  (ds.filterMap id).map fun d => d.1

/-! Helper lemmas. -/

lemma ctrXor_length (s : Nat → Nat) : ∀ (i : Nat) (l : List Nat),
    (ctrXor s i l).length = l.length := by
  intro i l
  induction l generalizing i with
  | nil => rfl
  | cons b bs ih => simp [ctrXor, ih]

lemma ctrXor_ctrXor (s : Nat → Nat) : ∀ (i : Nat) (l : List Nat),
    ctrXor s i (ctrXor s i l) = l := by
  intro i l
  induction l generalizing i with
  | nil => rfl
  | cons b bs ih => simp [ctrXor, ih, Nat.xor_cancel_right]

lemma generate_iv_length (r : Nat → Nat) : (generate_iv r).length = 16 := by
  simp [generate_iv]

lemma aes_decrypt_aes_encrypt (P : CryptoPrims) (key iv data : List Nat) :
    aes_decrypt P key iv (aes_encrypt P key iv data) = data := by
  simp [aes_decrypt, aes_encrypt, ctrXor_ctrXor]

lemma modifyFirst_isSome (id pw : List Nat) : ∀ (l : List Server),
    (l.any fun s => s.id = id) = true → (modifyFirst id pw l).isSome = true := by
  intro l h
  induction l with
  | nil => simp at h
  | cons s t ih =>
    by_cases hs : s.id = id
    · simp [modifyFirst, hs]
    · simp [List.any_cons, hs] at h
      simp [modifyFirst, hs, Option.isSome_map]
      exact ih (by simpa using h)

lemma modifyFirst_map_id (id pw : List Nat) : ∀ (l l' : List Server),
    modifyFirst id pw l = some l' → l'.map Server.id = l.map Server.id := by
  intro l
  induction l with
  | nil => intro l' h; simp [modifyFirst] at h
  | cons s t ih =>
    intro l' h
    by_cases hs : s.id = id
    · simp [modifyFirst, hs] at h
      subst h
      simp [hs]
    · simp [modifyFirst, hs, Option.map_eq_some'] at h
      obtain ⟨t', ht', rfl⟩ := h
      simp [ih t' ht']

lemma modifyFirst_eraseIdx (id pw : List Nat) : ∀ (l l' : List Server),
    modifyFirst id pw l = some l' →
      l'.eraseIdx (l.findIdx fun s => s.id = id)
        = l.eraseIdx (l.findIdx fun s => s.id = id) := by
  intro l
  induction l with
  | nil => intro l' h; simp [modifyFirst] at h
  | cons s t ih =>
    intro l' h
    by_cases hs : s.id = id
    · simp [modifyFirst, hs] at h
      subst h
      simp [List.findIdx_cons, hs]
    · simp [modifyFirst, hs, Option.map_eq_some'] at h
      obtain ⟨t', ht', rfl⟩ := h
      simp [List.findIdx_cons, hs, List.eraseIdx_cons_succ, ih t' ht']

lemma modifyFirst_getElem (id pw : List Nat) : ∀ (l l' : List Server),
    modifyFirst id pw l = some l' →
      l'[(l.findIdx fun s => s.id = id)]?
        = (l[(l.findIdx fun s => s.id = id)]?).map
            (fun s => ⟨s.id, pw⟩) := by
  intro l
  induction l with
  | nil => intro l' h; simp [modifyFirst] at h
  | cons s t ih =>
    intro l' h
    by_cases hs : s.id = id
    · simp [modifyFirst, hs] at h
      subst h
      simp [List.findIdx_cons, hs]
    · simp [modifyFirst, hs, Option.map_eq_some'] at h
      obtain ⟨t', ht', rfl⟩ := h
      simp [List.findIdx_cons, hs, ih t' ht']

/-- Evaluating `decrypt_vault` on a blob given in its sealed shape
`iv ++ ciphertext ++ tag` with a 16-byte IV and a 32-byte tag: the
splits recover the three parts, and the recomputed HMAC is compared
against the tag before any decryption. -/
lemma decrypt_vault_append (P : CryptoPrims) (deser : List Nat → Option Vault)
    (key iv ct tag : List Nat) (hiv : iv.length = 16) (htag : tag.length = 32) :
    decrypt_vault P deser (iv ++ ct ++ tag) key =
      if P.hmacSha256 key (iv ++ ct) = tag then
        match deser (aes_decrypt P key iv ct) with
        | some v => .ok v
        | none => .parseError
      else .hmacError := by
  have hassoc : iv ++ ct ++ tag = iv ++ (ct ++ tag) := List.append_assoc iv ct tag
  have hlen : (iv ++ ct ++ tag).length = 16 + ct.length + 32 := by
    simp [hiv, htag]; omega
  have h16 : ¬ (iv ++ ct ++ tag).length < 16 := by omega
  have htk : (iv ++ ct ++ tag).take 16 = iv := by
    rw [hassoc]; exact List.take_left' hiv
  have hdp : (iv ++ ct ++ tag).drop 16 = ct ++ tag := by
    rw [hassoc]; exact List.drop_left' hiv
  have hrl : (ct ++ tag).length = ct.length + 32 := by simp [htag]
  have h32 : ¬ (ct ++ tag).length < 32 := by omega
  have hsub : (ct ++ tag).length - 32 = ct.length := by omega
  have htk2 : (ct ++ tag).take ((ct ++ tag).length - 32) = ct := by
    rw [hsub]; exact List.take_left ct tag
  have hdp2 : (ct ++ tag).drop ((ct ++ tag).length - 32) = tag := by
    rw [hsub]; exact List.drop_left ct tag
  unfold decrypt_vault
  rw [if_neg h16, htk, hdp, if_neg h32, htk2, hdp2]

lemma sshChannelLoop_script (c : Nat) (rest : List ChEvent) :
    ∀ (ds : List (Option (List Nat × Nat × Nat))) (st : LoopState),
      (sshChannelLoop st (remoteScript ds ++ .msgExit c :: rest)).1 = .ok c
      ∧ writeOuts (sshChannelLoop st (remoteScript ds ++ .msgExit c :: rest)).2
          = remotePayloads ds := by
  intro ds
  induction ds with
  | nil =>
    intro st
    by_cases hb : st.stdinClosed <;>
      simp [remoteScript, remotePayloads, sshChannelLoop, hb, writeOuts]
  | cons d t ih =>
    intro st
    match d with
    | none =>
      simpa [remoteScript, remotePayloads, sshChannelLoop] using ih st
    | some p =>
      by_cases hw : (p.2.1, p.2.2) = st.lastSize <;>
        simp [remoteScript, remotePayloads, sshChannelLoop, hw, writeOuts,
          List.filterMap_cons] <;>
        exact ⟨(ih _).1, by simpa [writeOuts, remotePayloads] using (ih _).2⟩

lemma passwordSessionLoop_script (c : Nat) (rest : List ChEvent) :
    ∀ (ds : List (Option (List Nat × Nat × Nat))) (b : Bool),
      (passwordSessionLoop b (remoteScript ds ++ .msgExit c :: rest)).1 = .ok c
      ∧ writeOuts (passwordSessionLoop b (remoteScript ds ++ .msgExit c :: rest)).2
          = remotePayloads ds := by
  intro ds
  induction ds with
  | nil =>
    intro b
    cases b <;> simp [remoteScript, remotePayloads, passwordSessionLoop, writeOuts]
  | cons d t ih =>
    intro b
    match d with
    | none =>
      simpa [remoteScript, remotePayloads, passwordSessionLoop] using ih b
    | some p =>
      simp [remoteScript, remotePayloads, passwordSessionLoop, writeOuts,
        List.filterMap_cons]
      exact ⟨(ih _).1, by simpa [writeOuts, remotePayloads] using (ih _).2⟩

lemma passwordSessionLoop_no_winChange : ∀ (evs : List ChEvent) (b : Bool),
    ((passwordSessionLoop b evs).2.all fun a => !a.isWinChange) = true := by
  intro evs
  induction evs with
  | nil => intro b; rfl
  | cons e t ih =>
    intro b
    cases e <;> by_cases hb : b <;>
      simp [passwordSessionLoop, hb, Action.isWinChange, ih] <;>
      simpa using ih _

/-! Claim theorems. -/

/-- C1: the claim says `decrypt_vault` returns a FormatError on every
blob of fewer than 48 bytes, without panicking.  The code has no
length check: on a 20-byte blob (any key), `rest.split_at(rest.len() -
32)` panics, so no error value is ever returned.  This theorem
evaluates the embedded code at that failing input. -/
theorem decrypt_vault_short_blob_panics :
    decrypt_vault testPrims (fun _ => none)
      (List.replicate 20 0) (List.replicate 32 0) = .panicked := by
  decide

/-- C2: for every blob of at least 48 bytes, `decrypt_vault` returns
`ok` only if the trailing 32 bytes equal HMAC-SHA256(key, iv ++
ciphertext), and whenever the tag does not match it fails with the
integrity error, producing no plaintext — the ciphertext is never
decrypted or parsed on tag mismatch. -/
theorem decrypt_vault_tag_gate (P : CryptoPrims) (deser : List Nat → Option Vault)
    (key blob : List Nat) (h : 48 ≤ blob.length) :
    ((decrypt_vault P deser blob key).isOk = true →
       blob.drop (blob.length - 32)
         = P.hmacSha256 key (blob.take (blob.length - 32)))
    ∧ (blob.drop (blob.length - 32)
         ≠ P.hmacSha256 key (blob.take (blob.length - 32)) →
       decrypt_vault P deser blob key = .hmacError) := by
  have h16 : ¬ blob.length < 16 := by omega
  have hdlen : (blob.drop 16).length = blob.length - 16 := List.length_drop 16 blob
  have h32 : ¬ (blob.drop 16).length < 32 := by rw [hdlen]; omega
  have htake : blob.take 16 ++ (blob.drop 16).take ((blob.drop 16).length - 32)
      = blob.take (blob.length - 32) := by
    rw [hdlen]
    have e : blob.length - 32 = 16 + (blob.length - 16 - 32) := by omega
    rw [e, List.take_add]
  have hdrop : (blob.drop 16).drop ((blob.drop 16).length - 32)
      = blob.drop (blob.length - 32) := by
    rw [hdlen, List.drop_drop]
    congr 1
    omega
  unfold decrypt_vault
  rw [if_neg h16, if_neg h32]
  simp only []
  rw [htake, hdrop]
  by_cases hc : P.hmacSha256 key (blob.take (blob.length - 32))
      = blob.drop (blob.length - 32)
  · rw [if_pos hc]
    exact ⟨fun _ => hc.symm, fun hne => absurd hc.symm hne⟩
  · rw [if_neg hc]
    exact ⟨fun hk => by simp [VaultResult.isOk] at hk, fun _ => rfl⟩

/-- Witness for C2 at a concrete input: a 48-byte zero blob whose
trailing 32 bytes differ from the (all-ones) recomputed tag is
rejected with the integrity error. -/
theorem decrypt_vault_tag_gate_witness :
    decrypt_vault testPrimsOne (fun _ => some ⟨[]⟩)
      (List.replicate 48 0) (List.replicate 32 0) = .hmacError :=
  (decrypt_vault_tag_gate testPrimsOne (fun _ => some ⟨[]⟩)
    (List.replicate 32 0) (List.replicate 48 0) (by decide)).2 (by decide)

/-- C3: round-trip — decrypting a freshly sealed vault under the same
key succeeds and returns the sealed value, for every vault value,
32-byte key and random IV draw, given that deserialization inverts
serialization on that value (the TOML/UTF-8 round trip of the external
serializer). -/
theorem vault_roundtrip (P : CryptoPrims) (ser : Vault → List Nat)
    (deser : List Nat → Option Vault) (v : Vault) (key : List Nat)
    (r : Nat → Nat) (hkey : key.length = 32) (hsd : deser (ser v) = some v) :
    decrypt_vault P deser (encrypt_vault P ser v key r) key = .ok v := by
  have hb : encrypt_vault P ser v key r
      = generate_iv r ++ aes_encrypt P key (generate_iv r) (ser v)
        ++ P.hmacSha256 key
            (generate_iv r ++ aes_encrypt P key (generate_iv r) (ser v)) := rfl
  rw [hb, decrypt_vault_append P deser key _ _ _ (generate_iv_length r)
    (P.hmacSha256_len _ _), if_pos rfl, aes_decrypt_aes_encrypt, hsd]

/-- Witness for C3 at a concrete input: the empty vault, the zero key,
the zero RNG, and the trivial serializer pair. -/
theorem vault_roundtrip_witness :
    decrypt_vault testPrims (fun _ => some ⟨[]⟩)
      (encrypt_vault testPrims (fun _ => []) ⟨[]⟩ (List.replicate 32 0)
        (fun _ => 0))
      (List.replicate 32 0) = .ok ⟨[]⟩ :=
  vault_roundtrip testPrims (fun _ => []) (fun _ => some ⟨[]⟩) ⟨[]⟩
    (List.replicate 32 0) (fun _ => 0) (by decide) rfl

/-- C7: per-field determinism of `encrypt_password`: the result is
independent of the process RNG (the source derives the IV from the id
instead of drawing it), so two calls with the same id, password and
key return identical hex ciphertext, and the IV used is the first 16
bytes of SHA-256(id). -/
theorem encrypt_password_deterministic (P : CryptoPrims) (r₁ r₂ : Nat → Nat)
    (id password key : List Nat) :
    encrypt_password_call P r₁ id password key
        = encrypt_password_call P r₂ id password key
      ∧ encrypt_password P id password key
        = hexEncode (aes_encrypt P key ((P.sha256 id).take 16) password)
      ∧ derive_iv_from_id P id = (P.sha256 id).take 16 :=
  ⟨rfl, rfl, rfl⟩

/-- C8: `derive_key_from_password` is total (the argon2 error path is
dead for the fixed owasp3 configuration and 16-byte salt, for any
passphrase including the empty one), returns the 32-byte
argon2(passphrase, salt) with salt = first 16 bytes of
SHA-256(passphrase), and is a pure function of the passphrase, hence
deterministic. -/
theorem derive_key_total_deterministic (P : CryptoPrims) (password : List Nat) :
    derive_key_from_password P password
        = P.argon2 password ((P.sha256 password).take 16)
      ∧ (derive_key_from_password P password).length = 32
      ∧ derive_sha256_digest P password = (P.sha256 password).take 16 :=
  ⟨rfl, P.argon2_len password (derive_sha256_digest P password), rfl⟩

/-- Counterexample to C4: add a server to the empty vault while the
filesystem write fails.  The call returns the persist error, but the
in-memory list still holds the pushed record — it is not rolled back
to its pre-call state as the claim asserts. -/
theorem add_server_no_rollback_cex :
    (Vault.add_server testPrims (fun _ => []) (fun _ => 0) false
        ⟨[]⟩ ⟨[1], [2]⟩ (List.replicate 32 0)).2 = .error .persistError
    ∧ (Vault.add_server testPrims (fun _ => []) (fun _ => 0) false
        ⟨[]⟩ ⟨[1], [2]⟩ (List.replicate 32 0)).1 ≠ (⟨[]⟩ : Vault) := by
  decide

/-- C4 as amended: when the persist step fails, `add_server`,
`modify_server` and `delete_server` propagate the persist error, but
the in-memory server list keeps the mutation — the pushed record stays
appended, the modified password stays in place, the deleted record
stays removed.  No rollback occurs. -/
theorem vault_mutation_kept_on_persist_failure (P : CryptoPrims)
    (ser : Vault → List Nat) (r : Nat → Nat) (v : Vault) (s ns : Server)
    (id key : List Nat) (l : List Server) (pos : Nat)
    (hm : modifyFirst id ns.password v.servers = some l)
    (hd : v.servers.findIdx? (fun sv => sv.id = id) = some pos) :
    Vault.add_server P ser r false v s key
        = (⟨v.servers ++ [s]⟩, .error .persistError)
      ∧ Vault.modify_server P ser r false v id ns key
        = (⟨l⟩, .error .persistError)
      ∧ Vault.delete_server P ser r false v id key
        = (⟨v.servers.eraseIdx pos⟩, .error .persistError) := by
  refine ⟨?_, ?_, ?_⟩
  · simp [Vault.add_server, Vault.save]
  · simp [Vault.modify_server, hm, Vault.save]
  · simp [Vault.delete_server, hd, Vault.save]

/-- Witness for the amended C4 at a concrete input: a one-record vault
whose record matches the requested id, with the filesystem write
failing. -/
theorem vault_mutation_kept_on_persist_failure_witness :
    Vault.add_server testPrims (fun _ => []) (fun _ => 0) false
        ⟨[⟨[1], [2]⟩]⟩ ⟨[3], [4]⟩ (List.replicate 32 0)
      = (⟨[⟨[1], [2]⟩, ⟨[3], [4]⟩]⟩, .error .persistError)
    ∧ Vault.modify_server testPrims (fun _ => []) (fun _ => 0) false
        ⟨[⟨[1], [2]⟩]⟩ [1] ⟨[1], [9]⟩ (List.replicate 32 0)
      = (⟨[⟨[1], [9]⟩]⟩, .error .persistError)
    ∧ Vault.delete_server testPrims (fun _ => []) (fun _ => 0) false
        ⟨[⟨[1], [2]⟩]⟩ [1] (List.replicate 32 0)
      = (⟨[]⟩, .error .persistError) :=
  vault_mutation_kept_on_persist_failure testPrims (fun _ => []) (fun _ => 0)
    ⟨[⟨[1], [2]⟩]⟩ ⟨[3], [4]⟩ ⟨[1], [9]⟩ [1] (List.replicate 32 0)
    [⟨[1], [9]⟩] 0 (by decide) (by decide)

/-- C9: frame property of `modify_server` on a vault containing a
record with the given id: all record ids are unchanged (so the
modified record keeps its id and the list length is preserved),
every record other than the first one matching the id is bit-for-bit
unchanged (the lists agree after erasing that index), and that
record's stored password ciphertext becomes the new one. -/
theorem modify_server_frame (P : CryptoPrims) (ser : Vault -> List Nat)
    (r : Nat -> Nat) (fsOk : Bool) (v : Vault) (id key : List Nat) (ns : Server)
    (h : (v.servers.any fun s => s.id = id) = true) :
    ((Vault.modify_server P ser r fsOk v id ns key).1).servers.map Server.id
        = v.servers.map Server.id
      ∧ ((Vault.modify_server P ser r fsOk v id ns key).1).servers.eraseIdx
          (v.servers.findIdx fun s => s.id = id)
        = v.servers.eraseIdx (v.servers.findIdx fun s => s.id = id)
      ∧ ((Vault.modify_server P ser r fsOk v id ns key).1).servers[(v.servers.findIdx fun s => s.id = id)]?
        = (v.servers[(v.servers.findIdx fun s => s.id = id)]?).map
            (fun s => ⟨s.id, ns.password⟩)
      ∧ ((Vault.modify_server P ser r fsOk v id ns key).1).servers.length
        = v.servers.length := by
  have hsome := modifyFirst_isSome id ns.password v.servers h
  obtain ⟨l, hl⟩ := Option.isSome_iff_exists.mp hsome
  have hst : ((Vault.modify_server P ser r fsOk v id ns key).1).servers = l := by
    simp [Vault.modify_server, hl]
  have hmap := modifyFirst_map_id id ns.password v.servers l hl
  refine ⟨by rw [hst, hmap], by rw [hst]; exact modifyFirst_eraseIdx id ns.password v.servers l hl,
    by rw [hst]; exact modifyFirst_getElem id ns.password v.servers l hl, ?_⟩
  rw [hst]
  have := congrArg List.length hmap
  simpa using this

/-- Witness for C9 at a concrete input: a two-record vault, modifying
the second record (note the replacement Server value carries a
different id, which is ignored: only its password is taken). -/
theorem modify_server_frame_witness :
    ((Vault.modify_server testPrims (fun _ => []) (fun _ => 0) true
        ⟨[⟨[1], [2]⟩, ⟨[3], [4]⟩]⟩ [3] ⟨[7], [9]⟩ (List.replicate 32 0)).1).servers.map Server.id
        = [[1], [3]]
      ∧ ((Vault.modify_server testPrims (fun _ => []) (fun _ => 0) true
        ⟨[⟨[1], [2]⟩, ⟨[3], [4]⟩]⟩ [3] ⟨[7], [9]⟩ (List.replicate 32 0)).1).servers
        = [⟨[1], [2]⟩, ⟨[3], [9]⟩] := by
  have := modify_server_frame testPrims (fun _ => []) (fun _ => 0) true
    ⟨[⟨[1], [2]⟩, ⟨[3], [4]⟩]⟩ [3] (List.replicate 32 0) ⟨[7], [9]⟩ (by decide)
  revert this
  decide

/-- C10: the sealed blob produced by `encrypt_vault` has length
exactly 16 + L + 32 where L is the length of the serialized vault,
because CTR encryption is length-preserving; in particular every blob
the vault persists is at least 48 bytes long. -/
theorem encrypt_vault_blob_length (P : CryptoPrims) (ser : Vault → List Nat)
    (v : Vault) (key : List Nat) (r : Nat → Nat) :
    (encrypt_vault P ser v key r).length = 16 + (ser v).length + 32
      ∧ 48 ≤ (encrypt_vault P ser v key r).length := by
  have h : (encrypt_vault P ser v key r).length = 16 + (ser v).length + 32 := by
    simp [encrypt_vault, aes_encrypt, ctrXor_length, generate_iv_length,
      P.hmacSha256_len]
    omega
  exact ⟨h, by omega⟩

/-- C5: for every scripted remote channel event sequence — any run of
`Data` events (with arbitrary observed terminal sizes) followed by an
`ExitStatus` — both bridges write exactly the received `Data`
payloads, in order, to local output and return the exit code carried
by the `ExitStatus`; in particular, with `Data "hello"` then
`ExitStatus 0` they write `hello` and return 0, and with
`ExitStatus 1` alone they return 1 having written nothing. -/
theorem copy_loop_output_and_exit_code (ds : List (Option (List Nat × Nat × Nat)))
    (c : Nat) (rest : List ChEvent) (sz : Nat × Nat) :
    (sshChannelCall sz (remoteScript ds ++ .msgExit c :: rest)).1 = .ok c
    ∧ writeOuts (sshChannelCall sz (remoteScript ds ++ .msgExit c :: rest)).2
        = remotePayloads ds
    ∧ (passwordSessionCall sz (remoteScript ds ++ .msgExit c :: rest)).1 = .ok c
    ∧ writeOuts (passwordSessionCall sz (remoteScript ds ++ .msgExit c :: rest)).2
        = remotePayloads ds
    ∧ (sshChannelCall (80, 24)
        [.msgData [104, 101, 108, 108, 111] 80 24, .msgExit 0]).1 = .ok 0
    ∧ writeOuts (sshChannelCall (80, 24)
        [.msgData [104, 101, 108, 108, 111] 80 24, .msgExit 0]).2
        = [[104, 101, 108, 108, 111]]
    ∧ (passwordSessionCall (80, 24) [.msgExit 1]).1 = .ok 1
    ∧ writeOuts (passwordSessionCall (80, 24) [.msgExit 1]).2 = [] := by
  have h1 := sshChannelLoop_script c rest ds ⟨false, sz⟩
  have h2 := passwordSessionLoop_script c rest ds false
  refine ⟨h1.1, ?_, h2.1, ?_, by decide, by decide, by decide, by decide⟩
  · simpa [sshChannelCall, writeOuts] using h1.2
  · simpa [passwordSessionCall, writeOuts] using h2.2

/-- Counterexample to C6: the password-authenticated session's copy
loop receives remote data while the terminal size has changed from the
80x24 recorded at PTY request to 81x25, yet sends no window-resize
notification — it writes the bytes and exits; the claim asserts a
resize notification is sent for every session kind. -/
theorem password_session_no_winchange_cex :
    passwordSessionCall (80, 24) [.msgData [104] 81 25, .msgExit 0]
      = (.ok 0, [.requestPty 80 24, .writeOut [104], .sendEof])
    ∧ ((passwordSessionCall (80, 24) [.msgData [104] 81 25, .msgExit 0]).2.all
        fun a => !a.isWinChange) = true := by
  decide

/-- C6 as amended: on a remote `Data` event the key-session bridge
(`SshChannel::call`) compares the current terminal size with the
last-known size and sends a window change immediately before writing
the received bytes when they differ, and writes without a resize when
they are equal; the password-authenticated session's copy loop writes
the bytes directly and never sends a window change on any script. -/
theorem winchange_before_write_key_session_only (st : LoopState) (bs : List Nat)
    (w h : Nat) (evs : List ChEvent) (b : Bool) :
    ((w, h) ≠ st.lastSize →
       (sshChannelLoop st (.msgData bs w h :: evs)).2.take 2
         = [.winChange w h, .writeOut bs])
    ∧ ((w, h) = st.lastSize →
       (sshChannelLoop st (.msgData bs w h :: evs)).2.take 1 = [.writeOut bs])
    ∧ (passwordSessionLoop b (.msgData bs w h :: evs)).2.take 1 = [.writeOut bs]
    ∧ ((passwordSessionLoop b evs).2.all fun a => !a.isWinChange) = true := by
  refine ⟨fun hne => ?_, fun heq => ?_, ?_,
    passwordSessionLoop_no_winChange evs b⟩
  · simp [sshChannelLoop, hne]
  · simp [sshChannelLoop, heq]
  · simp [passwordSessionLoop]

/-- Witness for the amended C6 at a concrete input: last-known size
80x24, data arriving with the terminal at 81x25 — the window change
precedes the write. -/
theorem winchange_before_write_key_session_only_witness :
    (sshChannelLoop ⟨false, (80, 24)⟩ [.msgData [104] 81 25]).2.take 2
      = [.winChange 81 25, .writeOut [104]] :=
  (winchange_before_write_key_session_only ⟨false, (80, 24)⟩ [104] 81 25 []
    false).1 (by decide)

end SshUtils
